import Mathlib

/-!
Shallow embedding of the beach recommendation engine of be-oceanique
(src/src/controllers/recommendationController.ts) and proofs about it.

The numeric type is ℚ: the JavaScript source computes with float64, but every
quantity here is a ratio of small integers and the properties of interest are
exact identities of those ratios. The one place where JS float semantics leaks
is 0/0 = NaN (see getUserPreferenceWeights), where the ℚ junk value 0/0 = 0
behaves the same in every context the program uses it (both NaN > 0 and
0 > 0 are false).

Records (JS objects) are modelled as association lists built by insertion,
with integer-keyed records iterated in ascending key order and string-keyed
records in first-insertion order, as ECMAScript specifies for ordinary
objects.
-/

namespace Oceanique

/-- JavaScript Math.round: round half toward positive infinity. -/
def jsRound (q : ℚ) : ℤ := ⌊q + 1/2⌋

/-- Scored beach (BeachMatch in src/types): beach id and integer match percentage. -/
structure BeachMatch where
  beach_id : ℕ
  match_percentage : ℤ
deriving DecidableEq

/-- Result record of getDetailedBeachResults, restricted to the fields the
claims are about (the remaining metadata fields are carried the same way as
beach_name and do not affect order, truncation or scores). -/
structure EnrichedMatch where
  beach_id : ℕ
  match_percentage : ℤ
  beach_name : String
deriving DecidableEq

/-- JS object assignment record[k] = v on an association list: overwrite the
value in place if the key exists, else append (string keys keep
first-insertion order in ECMAScript). -/
def recordSet (r : List (String × ℚ)) (k : String) (v : ℚ) : List (String × ℚ) :=
  if k ∈ r.map Prod.fst then r.map (fun p => if p.1 = k then (k, v) else p) else r ++ [(k, v)]

/-- JS record read weights[category], as the Match Scorer consumes it: a
missing key gives undefined, and the only use is the comparison
rankScore > 0 plus multiplication under that guard, so undefined (and the NaN
produced by an all-zero preference row set) is modelled by 0 — both fail the
guard exactly as in JS. Keys built by recordSet are unique, so the first
match is the entry. -/
def wlookup (w : List (String × ℚ)) (c : String) : ℚ :=
  ((w.find? (fun p => p.1 = c)).map Prod.snd).getD 0

/-- getUserPreferenceWeights (recommendationController.ts:400-431): from the
user's (category name, score) rows, return {} when there are no rows, else
assign each category score / (sum of all scores). When the sum is 0 the JS
division 0/0 yields NaN; in ℚ it yields 0 — in both cases the returned record
is non-empty and every weight fails the scorer's rankScore > 0 guard. -/
def getUserPreferenceWeights (prefs : List (String × ℚ)) : List (String × ℚ) :=
  if prefs.isEmpty then []
  else
    let maxRank := (prefs.map Prod.snd).sum
    prefs.foldl (fun w p => recordSet w p.1 (p.2 / maxRank)) []

/-- getOptionCategoryMap (recommendationController.ts:434-451): builds
optionCategoryMap[row.id] = row.name row by row, so the last row for an id
wins; an id with no row maps to none (JS undefined). -/
def getOptionCategoryMap (rows : List (ℕ × String)) : ℕ → Option String :=
  fun o => ((rows.filter (fun r => r.1 = o)).getLast?).map Prod.snd

/-- getBeachOptions (recommendationController.ts:454-493): beaches present in
review_summary contribute exactly their review_summary rows, every other
beach contributes its beaches_default_options rows, and when review_summary
is empty the default rows are used for all beaches. Rows are
(beaches_id, options_id) pairs. -/
def getBeachOptions (derived defaults : List (ℕ × ℕ)) : List (ℕ × ℕ) :=
  let reviewSummaryBeachIds := (derived.map Prod.fst).dedup
  if reviewSummaryBeachIds.isEmpty then defaults
  else
    derived.filter (fun r => r.1 ∈ reviewSummaryBeachIds)
      ++ defaults.filter (fun r => r.1 ∉ reviewSummaryBeachIds)

/-- Insert into an ascending list of beach ids. -/
def insertAsc (a : ℕ) : List ℕ → List ℕ
  | [] => [a]
  | b :: l => if a ≤ b then a :: b :: l else b :: insertAsc a l

/-- Sort beach ids ascending: the enumeration order ECMAScript prescribes for
the integer-like keys of an object. -/
def sortAsc (l : List ℕ) : List ℕ := l.foldr insertAsc []

/-- groupBeachOptionsByBeachId (recommendationController.ts:496-517): groups
the rows into a record beachId -> Set of optionIds. A JS object with
integer-like keys enumerates them in ascending numeric order, so the record
is the ascending list of distinct beach ids, each with its option set. -/
def groupBeachOptionsByBeachId (rows : List (ℕ × ℕ)) : List (ℕ × Finset ℕ) :=
  (sortAsc (rows.map Prod.fst).dedup).map
    (fun b => (b, ((rows.filter (fun r => r.1 = b)).map Prod.snd).toFinset))

/-- First-occurrence deduplication, with the keys already emitted carried in
seen: the key enumeration order of a JS object built by repeated insertion. -/
def dedupFirstAux (seen : List String) : List String → List String
  | [] => []
  | a :: l => if a ∈ seen then dedupFirstAux seen l else a :: dedupFirstAux (a :: seen) l

/-- First-occurrence deduplication: the key enumeration order of a JS object
built by repeated insertion. -/
def dedupFirst (l : List String) : List String := dedupFirstAux [] l

/-- The entry list userOptionsByCategory[c]
(recommendationController.ts:530-539): the user's selected options whose
category is c, in input order, duplicates kept. -/
def userOptionsIn (ocm : ℕ → Option String) (userOptions : List ℕ) (c : String) : List ℕ :=
  userOptions.filter (fun o => ocm o = some c)

/-- The keys of userOptionsByCategory in JS enumeration order: each selected
option's category, options without a category dropped, first occurrence
first. -/
def userCategories (ocm : ℕ → Option String) (userOptions : List ℕ) : List String :=
  dedupFirst (userOptions.filterMap ocm)

/-- categoryScore (recommendationController.ts:595): matching options over the
user's option count for the category — both counted on the entry list, so a
duplicated option id counts twice on each side. -/
def categoryScoreFor (ocm : ℕ → Option String) (userOptions : List ℕ)
    (beachOptionSet : Finset ℕ) (c : String) : ℚ :=
  (((userOptionsIn ocm userOptions c).filter (fun o => o ∈ beachOptionSet)).length : ℚ)
    / ((userOptionsIn ocm userOptions c).length : ℚ)

/-- Per-beach score: the loop body of calculateBeachMatches
(recommendationController.ts:578-628). Only categories whose weight passes
rankScore > 0 contribute; each contributes categoryScore times its weight. -/
def pctFor (ocm : ℕ → Option String) (weights : String → ℚ) (userOptions : List ℕ)
    (beachOptionSet : Finset ℕ) : ℤ :=
  let cats := userCategories ocm userOptions
  let totalWeightedScore :=
    (cats.map (fun c =>
      if 0 < weights c then categoryScoreFor ocm userOptions beachOptionSet c * weights c
      else 0)).sum
  let totalPossibleWeight :=
    (cats.map (fun c => if 0 < weights c then weights c else 0)).sum
  let similarity :=
    if 0 < totalPossibleWeight then totalWeightedScore / totalPossibleWeight else 0
  jsRound (similarity * 100)

/-- One step of results.sort((a, b) => b.match_percentage - a.match_percentage):
insert an element into an already sorted list after every element of equal or
higher percentage. ECMAScript sort is stable, so this foldl insertion
reproduces it exactly. -/
def insertMatch (a : BeachMatch) : List BeachMatch → List BeachMatch
  | [] => [a]
  | b :: l =>
    if b.match_percentage < a.match_percentage then a :: b :: l else b :: insertMatch a l

/-- Stable sort by descending match percentage. -/
def sortMatches (l : List BeachMatch) : List BeachMatch :=
  l.foldl (fun acc a => insertMatch a acc) []

/-- calculateBeachMatches (recommendationController.ts:520-642): score every
beach in the map and sort by descending match percentage. -/
def calculateBeachMatches (userOptions : List ℕ) (beachMap : List (ℕ × Finset ℕ))
    (ocm : ℕ → Option String) (weights : String → ℚ) : List BeachMatch :=
  sortMatches (beachMap.map (fun p => BeachMatch.mk p.1 (pctFor ocm weights userOptions p.2)))

/-- getDetailedBeachResults (recommendationController.ts:645-701): attach each
scored beach its metadata row; a beach with no metadata row makes the JS code
throw a TypeError (beachDetail.id on undefined), modelled as none. -/
def getDetailedBeachResults (details : List (ℕ × String)) :
    List BeachMatch → Option (List EnrichedMatch)
  | [] => some []
  | r :: rs =>
    match (details.find? (fun d => d.1 = r.beach_id)).map
        (fun d => EnrichedMatch.mk r.beach_id r.match_percentage d.2) with
    | none => none
    | some e => (getDetailedBeachResults details rs).map (fun es => e :: es)

/-- Outcome of the BeachRecommendations handler, abstracted from HTTP: the two
400 responses, the catch-all 500, and the 200 payload. -/
inductive RecOutcome where
  | invalidInput
  | configError
  | serverError
  | ok (data : List EnrichedMatch)
deriving DecidableEq

/-- The scored, sorted list the handler computes before truncation. -/
def recResults (userOptions : List ℕ) (prefs : List (String × ℚ))
    (ocmRows : List (ℕ × String)) (derived defaults : List (ℕ × ℕ)) : List BeachMatch :=
  calculateBeachMatches userOptions
    (groupBeachOptionsByBeachId (getBeachOptions derived defaults))
    (getOptionCategoryMap ocmRows)
    (wlookup (getUserPreferenceWeights prefs))

/-- BeachRecommendations (recommendationController.ts:324-397): validate the
option list, compute weights, resolve beach features, score, truncate to the
top 5 and enrich. The inputs are the four data snapshots the handler reads. -/
def BeachRecommendations (userOptions : List ℕ) (prefs : List (String × ℚ))
    (ocmRows : List (ℕ × String)) (derived defaults : List (ℕ × ℕ))
    (details : List (ℕ × String)) : RecOutcome :=
  if userOptions.isEmpty then .invalidInput
  else if (getUserPreferenceWeights prefs).isEmpty then .configError
  else if (recResults userOptions prefs ocmRows derived defaults).isEmpty then .ok []
  else
    match getDetailedBeachResults details
        ((recResults userOptions prefs ocmRows derived defaults).take 5) with
    | some detailed => .ok detailed
    | none => .serverError

/-- The Match Scorer formula exactly as the spec states it (spec §4.4):
partition the user's selected options by category, dropping options with no
category; for each user category of positive weight,
categoryScore = (user options in the category lying in the beach's option
set) / (user options in the category); accumulate categoryScore * weight and
weight; similarity is their quotient when any weight accumulated, else 0; and
matchPercentage rounds similarity * 100 half-up. Stated over the set of user
categories, so that comparing it with the source's insertion-ordered loop is
a theorem, not a definition. -/
def specMatchPercentage (ocm : ℕ → Option String) (weights : String → ℚ)
    (userOptions : List ℕ) (beachOptionSet : Finset ℕ) : ℤ :=
  let catSet : Finset String := (userOptions.filterMap ocm).toFinset
  let posCats := catSet.filter (fun c => 0 < weights c)
  let categoryScore : String → ℚ := fun c =>
    ((userOptionsIn ocm userOptions c).countP (fun o => o ∈ beachOptionSet) : ℚ)
      / ((userOptionsIn ocm userOptions c).length : ℚ)
  let totalWeightedScore := posCats.sum (fun c => categoryScore c * weights c)
  let totalPossibleWeight := posCats.sum (fun c => weights c)
  let similarity :=
    if 0 < totalPossibleWeight then totalWeightedScore / totalPossibleWeight else 0
  jsRound (similarity * 100)

/-- The order the Result Assembler is claimed to produce: strictly higher
percentage first, ties by ascending beach id. -/
def matchBefore (a b : BeachMatch) : Prop :=
  b.match_percentage < a.match_percentage ∨
    (a.match_percentage = b.match_percentage ∧ a.beach_id < b.beach_id)

/-- Option-Category Index of the spec's partial-match scenario: options 1, 2, 3
in Scenery, option 4 in Facilities. -/
def scenOcm : ℕ → Option String :=
  getOptionCategoryMap [(1, "Scenery"), (2, "Scenery"), (3, "Scenery"), (4, "Facilities")]

/-- Weights of the spec's partial-match scenario: Scenery 0.6, Facilities 0.4. -/
def scenWeights : String → ℚ := wlookup [("Scenery", 3/5), ("Facilities", 2/5)]

/-- Option-Category Index with options 1 and 2 both in category A, for the
duplicate-option counterexample. -/
def cexOcm : ℕ → Option String := getOptionCategoryMap [(1, "A"), (2, "A")]

/-- Weight 1 on category A, for the duplicate-option counterexample. -/
def cexWeights : String → ℚ := wlookup [("A", 1)]

/-! ### Supporting lemmas: deduplication, sorting, grouping -/

theorem dedupFirstAux_mem (seen l : List String) (x : String) :
    x ∈ dedupFirstAux seen l ↔ x ∈ l ∧ x ∉ seen := by
  induction l generalizing seen with
  | nil => simp [dedupFirstAux]
  | cons a l ih =>
    by_cases ha : a ∈ seen
    · simp only [dedupFirstAux, if_pos ha, ih, List.mem_cons]
      constructor
      · rintro ⟨h1, h2⟩
        exact ⟨Or.inr h1, h2⟩
      · rintro ⟨h1 | h1, h2⟩
        · exact absurd (h1 ▸ ha) h2
        · exact ⟨h1, h2⟩
    · simp only [dedupFirstAux, if_neg ha, List.mem_cons, ih]
      constructor
      · rintro (rfl | ⟨h1, h2⟩)
        · exact ⟨Or.inl rfl, ha⟩
        · exact ⟨Or.inr h1, fun hx => h2 (Or.inr hx)⟩
      · rintro ⟨h1 | h1, h2⟩
        · exact Or.inl h1
        · by_cases hxa : x = a
          · exact Or.inl hxa
          · exact Or.inr ⟨h1, by simp [hxa, h2]⟩

theorem dedupFirstAux_nodup (seen l : List String) : (dedupFirstAux seen l).Nodup := by
  induction l generalizing seen with
  | nil => simp [dedupFirstAux]
  | cons a l ih =>
    by_cases ha : a ∈ seen
    · simpa [dedupFirstAux, if_pos ha] using ih seen
    · simp only [dedupFirstAux, if_neg ha, List.nodup_cons]
      exact ⟨fun hmem => ((dedupFirstAux_mem _ _ _).1 hmem).2 (List.mem_cons_self a seen),
        ih (a :: seen)⟩

theorem mem_dedupFirst (l : List String) (x : String) : x ∈ dedupFirst l ↔ x ∈ l := by
  simp [dedupFirst, dedupFirstAux_mem]

theorem dedupFirst_nodup (l : List String) : (dedupFirst l).Nodup := dedupFirstAux_nodup [] l

theorem dedupFirst_toFinset (l : List String) : (dedupFirst l).toFinset = l.toFinset := by
  ext x
  simp [mem_dedupFirst]

theorem dedupFirst_perm_of_perm {l l' : List String} (h : l.Perm l') :
    (dedupFirst l).Perm (dedupFirst l') :=
  (List.perm_ext_iff_of_nodup (dedupFirst_nodup l) (dedupFirst_nodup l')).2
    (fun a => by simp [mem_dedupFirst, h.mem_iff])

theorem insertAsc_perm (a : ℕ) (l : List ℕ) : (insertAsc a l).Perm (a :: l) := by
  induction l with
  | nil => exact List.Perm.refl _
  | cons b l ih =>
    by_cases h : a ≤ b
    · simp [insertAsc, if_pos h]
    · simp only [insertAsc, if_neg h]
      exact (ih.cons b).trans (List.Perm.swap a b l)

theorem insertAsc_sorted (a : ℕ) {l : List ℕ} (h : l.Pairwise (· ≤ ·)) :
    (insertAsc a l).Pairwise (· ≤ ·) := by
  induction l with
  | nil => simp [insertAsc]
  | cons b l ih =>
    obtain ⟨hb, hl⟩ := List.pairwise_cons.1 h
    by_cases hab : a ≤ b
    · simp only [insertAsc, if_pos hab, List.pairwise_cons]
      refine ⟨fun y hy => ?_, hb, hl⟩
      rcases List.mem_cons.1 hy with rfl | hy
      · exact hab
      · exact hab.trans (hb y hy)
    · simp only [insertAsc, if_neg hab, List.pairwise_cons]
      refine ⟨fun y hy => ?_, ih hl⟩
      rcases List.mem_cons.1 ((insertAsc_perm a l).mem_iff.1 hy) with rfl | hy
      · exact le_of_lt (lt_of_not_le hab)
      · exact hb y hy

theorem sortAsc_perm (l : List ℕ) : (sortAsc l).Perm l := by
  induction l with
  | nil => exact List.Perm.refl _
  | cons a l ih => exact (insertAsc_perm a (sortAsc l)).trans (ih.cons a)

theorem sortAsc_sorted (l : List ℕ) : (sortAsc l).Pairwise (· ≤ ·) := by
  induction l with
  | nil => simp [sortAsc]
  | cons a l ih => exact insertAsc_sorted a ih

theorem mem_groupBeachOptionsByBeachId {rows : List (ℕ × ℕ)} {b : ℕ} {s : Finset ℕ} :
    (b, s) ∈ groupBeachOptionsByBeachId rows ↔
      b ∈ rows.map Prod.fst ∧
        s = ((rows.filter (fun r => r.1 = b)).map Prod.snd).toFinset := by
  unfold groupBeachOptionsByBeachId
  rw [List.mem_map]
  constructor
  · rintro ⟨k, hk, heq⟩
    obtain ⟨rfl, rfl⟩ := Prod.mk.injEq _ _ _ _ ▸ And.intro (congrArg Prod.fst heq)
      (congrArg Prod.snd heq)
    exact ⟨List.mem_dedup.1 ((sortAsc_perm _).mem_iff.1 hk), rfl⟩
  · rintro ⟨hb, rfl⟩
    exact ⟨b, (sortAsc_perm _).mem_iff.2 (List.mem_dedup.2 hb), rfl⟩

theorem groupBeachOptionsByBeachId_keys_lt (rows : List (ℕ × ℕ)) :
    (groupBeachOptionsByBeachId rows).Pairwise (fun p q => p.1 < q.1) := by
  unfold groupBeachOptionsByBeachId
  rw [List.pairwise_map]
  have hle := sortAsc_sorted (rows.map Prod.fst).dedup
  have hnd : (sortAsc (rows.map Prod.fst).dedup).Nodup :=
    ((sortAsc_perm _).nodup_iff).2 (List.nodup_dedup _)
  exact (hle.and hnd).imp (fun h => lt_of_le_of_ne h.1 h.2)

theorem insertMatch_perm (a : BeachMatch) (l : List BeachMatch) :
    (insertMatch a l).Perm (a :: l) := by
  induction l with
  | nil => exact List.Perm.refl _
  | cons b l ih =>
    by_cases h : b.match_percentage < a.match_percentage
    · simp [insertMatch, if_pos h]
    · simp only [insertMatch, if_neg h]
      exact (ih.cons b).trans (List.Perm.swap a b l)

theorem sortMatchesAux_perm :
    ∀ (l acc : List BeachMatch),
      (l.foldl (fun acc a => insertMatch a acc) acc).Perm (acc ++ l)
  | [], acc => by simp
  | a :: l, acc => by
    have h1 := sortMatchesAux_perm l (insertMatch a acc)
    have h2 : (insertMatch a acc ++ l).Perm (acc ++ a :: l) :=
      ((insertMatch_perm a acc).append_right l).trans List.perm_middle.symm
    simpa [List.foldl_cons] using h1.trans h2

theorem sortMatches_perm (l : List BeachMatch) : (sortMatches l).Perm l := by
  simpa using sortMatchesAux_perm l []

theorem mem_sortMatches {l : List BeachMatch} {x : BeachMatch} :
    x ∈ sortMatches l ↔ x ∈ l := (sortMatches_perm l).mem_iff

theorem insertMatch_pairwise {a : BeachMatch} {l : List BeachMatch}
    (hl : l.Pairwise matchBefore)
    (ha : ∀ x ∈ l, x.match_percentage = a.match_percentage → x.beach_id < a.beach_id) :
    (insertMatch a l).Pairwise matchBefore := by
  induction l with
  | nil => simp [insertMatch]
  | cons b l ih =>
    obtain ⟨hb, hl'⟩ := List.pairwise_cons.1 hl
    by_cases h : b.match_percentage < a.match_percentage
    · simp only [insertMatch, if_pos h, List.pairwise_cons]
      refine ⟨fun y hy => ?_, hb, hl'⟩
      rcases List.mem_cons.1 hy with rfl | hy
      · exact Or.inl h
      · rcases hb y hy with h' | ⟨h', _⟩
        · exact Or.inl (h'.trans h)
        · exact Or.inl (h' ▸ h)
    · simp only [insertMatch, if_neg h, List.pairwise_cons]
      refine ⟨fun y hy => ?_, ih hl' (fun x hx => ha x (List.mem_cons_of_mem b hx))⟩
      rcases List.mem_cons.1 ((insertMatch_perm a l).mem_iff.1 hy) with rfl | hy
      · rcases lt_or_eq_of_le (le_of_not_lt h) with h' | h'
        · exact Or.inl h'
        · exact Or.inr ⟨h'.symm, ha b (List.mem_cons_self b l) h'.symm⟩
      · exact hb y hy

theorem sortMatchesAux_pairwise :
    ∀ (l acc : List BeachMatch),
      acc.Pairwise matchBefore →
      (∀ x ∈ acc, ∀ y ∈ l, x.match_percentage = y.match_percentage → x.beach_id < y.beach_id) →
      l.Pairwise (fun p q => p.beach_id < q.beach_id) →
      (l.foldl (fun acc a => insertMatch a acc) acc).Pairwise matchBefore
  | [], acc, hacc, _, _ => hacc
  | a :: l, acc, hacc, hcross, hl => by
    obtain ⟨haid, hl'⟩ := List.pairwise_cons.1 hl
    have hstep : (insertMatch a acc).Pairwise matchBefore :=
      insertMatch_pairwise hacc
        (fun x hx hpct => hcross x hx a (List.mem_cons_self a l) hpct)
    have hcross' : ∀ x ∈ insertMatch a acc, ∀ y ∈ l,
        x.match_percentage = y.match_percentage → x.beach_id < y.beach_id := by
      intro x hx y hy hpct
      rcases List.mem_cons.1 ((insertMatch_perm a acc).mem_iff.1 hx) with rfl | hx
      · exact haid y hy
      · exact hcross x hx y (List.mem_cons_of_mem a hy) hpct
    simpa [List.foldl_cons] using
      sortMatchesAux_pairwise l (insertMatch a acc) hstep hcross' hl'

theorem sortMatches_pairwise {l : List BeachMatch}
    (h : l.Pairwise (fun p q => p.beach_id < q.beach_id)) :
    (sortMatches l).Pairwise matchBefore :=
  sortMatchesAux_pairwise l [] (by simp) (by simp) h

theorem mem_calculateBeachMatches {u : List ℕ} {m : List (ℕ × Finset ℕ)}
    {ocm : ℕ → Option String} {w : String → ℚ} {b : ℕ} {p : ℤ} :
    BeachMatch.mk b p ∈ calculateBeachMatches u m ocm w ↔
      ∃ s, (b, s) ∈ m ∧ p = pctFor ocm w u s := by
  unfold calculateBeachMatches
  rw [mem_sortMatches, List.mem_map]
  constructor
  · rintro ⟨q, hq, heq⟩
    obtain ⟨h1, h2⟩ := BeachMatch.mk.injEq _ _ _ _ ▸ heq
    exact ⟨q.2, by rw [← h1]; exact hq, h2.symm⟩
  · rintro ⟨s, hs, rfl⟩
    exact ⟨(b, s), hs, rfl⟩

/-! ### Supporting lemmas: weight records -/

theorem recordSet_ne_nil (r : List (String × ℚ)) (k : String) (v : ℚ) :
    recordSet r k v ≠ [] := by
  unfold recordSet
  by_cases hk : k ∈ r.map Prod.fst
  · rw [if_pos hk]
    intro h
    rw [List.map_eq_nil_iff] at h
    simp [h] at hk
  · rw [if_neg hk]
    simp

theorem foldl_recordSet_ne_nil (f : (String × ℚ) → ℚ) :
    ∀ (rest acc : List (String × ℚ)), acc ≠ [] →
      rest.foldl (fun w p => recordSet w p.1 (f p)) acc ≠ []
  | [], _, h => h
  | p :: rest, acc, _ => by
    simpa [List.foldl_cons] using
      foldl_recordSet_ne_nil f rest (recordSet acc p.1 (f p)) (recordSet_ne_nil _ _ _)

theorem getUserPreferenceWeights_eq_nil_iff (prefs : List (String × ℚ)) :
    getUserPreferenceWeights prefs = [] ↔ prefs = [] := by
  unfold getUserPreferenceWeights
  rcases prefs with _ | ⟨p, rest⟩
  · simp
  · simp only [List.isEmpty_cons, Bool.false_eq_true, if_false, List.foldl_cons]
    constructor
    · intro h
      exact absurd h
        (foldl_recordSet_ne_nil _ rest (recordSet [] p.1 _) (recordSet_ne_nil _ _ _))
    · intro h
      cases h

theorem foldl_recordSet_eq_append (f : (String × ℚ) → ℚ) :
    ∀ (rest acc : List (String × ℚ)),
      (rest.map Prod.fst).Nodup →
      (∀ p ∈ rest, p.1 ∉ acc.map Prod.fst) →
      rest.foldl (fun w p => recordSet w p.1 (f p)) acc
        = acc ++ rest.map (fun p => (p.1, f p))
  | [], acc, _, _ => by simp
  | p :: rest, acc, hnd, hdisj => by
    have hp : p.1 ∉ acc.map Prod.fst := hdisj p (List.mem_cons_self p rest)
    have hstep : recordSet acc p.1 (f p) = acc ++ [(p.1, f p)] := by
      unfold recordSet
      rw [if_neg hp]
    rw [List.map_cons, List.nodup_cons] at hnd
    obtain ⟨hhead, htail⟩ := hnd
    have hdisj' : ∀ q ∈ rest, q.1 ∉ (acc ++ [(p.1, f p)]).map Prod.fst := by
      intro q hq
      simp only [List.map_append, List.mem_append, List.map_cons, List.map_nil,
        List.mem_singleton]
      rintro (h | h)
      · exact hdisj q (List.mem_cons_of_mem p hq) h
      · exact hhead (h ▸ List.mem_map_of_mem Prod.fst hq)
    rw [List.foldl_cons, hstep, foldl_recordSet_eq_append f rest _ htail hdisj']
    simp

theorem getUserPreferenceWeights_eq_map {prefs : List (String × ℚ)}
    (hnd : (prefs.map Prod.fst).Nodup) (hne : prefs ≠ []) :
    getUserPreferenceWeights prefs
      = prefs.map (fun p => (p.1, p.2 / (prefs.map Prod.snd).sum)) := by
  unfold getUserPreferenceWeights
  rw [if_neg (by simpa [List.isEmpty_iff] using hne)]
  simpa using
    foldl_recordSet_eq_append (fun p => p.2 / (prefs.map Prod.snd).sum) prefs [] hnd (by simp)

theorem find?_eq_of_nodup_keys :
    ∀ {l : List (String × ℚ)} {k : String} {v : ℚ},
      (l.map Prod.fst).Nodup → (k, v) ∈ l →
      l.find? (fun p => p.1 = k) = some (k, v) := by
  intro l
  induction l with
  | nil => intro k v _ h; cases h
  | cons q l ih =>
    intro k v hnd hmem
    rw [List.map_cons, List.nodup_cons] at hnd
    obtain ⟨hhead, htail⟩ := hnd
    rcases List.mem_cons.1 hmem with rfl | hmem
    · rw [List.find?_cons_of_pos _ (by simp)]
    · rw [List.find?_cons_of_neg, ih htail hmem]
      simp only [decide_eq_true_eq]
      intro h
      exact hhead (h ▸ List.mem_map_of_mem Prod.fst hmem)

theorem wlookup_eq {l : List (String × ℚ)} {k : String} {v : ℚ}
    (hnd : (l.map Prod.fst).Nodup) (hmem : (k, v) ∈ l) : wlookup l k = v := by
  unfold wlookup
  rw [find?_eq_of_nodup_keys hnd hmem]
  rfl

theorem sum_map_div (l : List ℚ) (t : ℚ) : (l.map (fun x => x / t)).sum = l.sum / t := by
  induction l with
  | nil => simp
  | cons a l ih => simp [ih, add_div]

/-! ### Supporting lemmas: the per-beach score -/

theorem pctFor_eq_specMatchPercentage (ocm : ℕ → Option String) (w : String → ℚ)
    (u : List ℕ) (s : Finset ℕ) : pctFor ocm w u s = specMatchPercentage ocm w u s := by
  simp only [pctFor, specMatchPercentage, Finset.sum_filter]
  rw [show (u.filterMap ocm).toFinset = (dedupFirst (u.filterMap ocm)).toFinset from
    (dedupFirst_toFinset _).symm]
  rw [List.sum_toFinset _ (dedupFirst_nodup _), List.sum_toFinset _ (dedupFirst_nodup _)]
  simp only [List.countP_eq_length_filter, categoryScoreFor, userCategories]

theorem categoryScoreFor_bounds (ocm : ℕ → Option String) (u : List ℕ) (s : Finset ℕ)
    (c : String) : 0 ≤ categoryScoreFor ocm u s c ∧ categoryScoreFor ocm u s c ≤ 1 := by
  unfold categoryScoreFor
  constructor
  · exact div_nonneg (Nat.cast_nonneg _) (Nat.cast_nonneg _)
  · rcases Nat.eq_zero_or_pos (userOptionsIn ocm u c).length with h | h
    · have hnil : userOptionsIn ocm u c = [] := List.eq_nil_of_length_eq_zero h
      simp [hnil]
    · apply div_le_one_of_le₀
      · exact_mod_cast List.length_filter_le _ _
      · positivity

theorem pctFor_bounds (ocm : ℕ → Option String) (w : String → ℚ) (u : List ℕ)
    (s : Finset ℕ) : 0 ≤ pctFor ocm w u s ∧ pctFor ocm w u s ≤ 100 := by
  simp only [pctFor]
  set tws := ((userCategories ocm u).map
    (fun c => if 0 < w c then categoryScoreFor ocm u s c * w c else 0)).sum with htws
  set tpw := ((userCategories ocm u).map
    (fun c => if 0 < w c then w c else 0)).sum with htpw
  have h0 : 0 ≤ tws := by
    rw [htws]
    apply List.sum_nonneg
    intro x hx
    obtain ⟨c, _, rfl⟩ := List.mem_map.1 hx
    split
    · exact mul_nonneg (categoryScoreFor_bounds ocm u s c).1 (le_of_lt (by assumption))
    · exact le_refl 0
  have hle : tws ≤ tpw := by
    rw [htws, htpw]
    apply List.sum_le_sum
    intro c _
    split
    · calc categoryScoreFor ocm u s c * w c
          ≤ 1 * w c :=
            mul_le_mul_of_nonneg_right (categoryScoreFor_bounds ocm u s c).2
              (le_of_lt (by assumption))
        _ = w c := one_mul _
    · exact le_refl 0
  have hsim0 : 0 ≤ (if 0 < tpw then tws / tpw else 0) := by
    split
    · exact div_nonneg h0 (le_of_lt (by assumption))
    · exact le_refl 0
  have hsim1 : (if 0 < tpw then tws / tpw else 0) ≤ 1 := by
    split
    · exact (div_le_one (by assumption)).2 hle
    · exact zero_le_one
  constructor
  · apply Int.le_floor.2
    push_cast
    nlinarith [hsim0]
  · apply Int.lt_add_one_iff.1
    apply Int.floor_lt.2
    push_cast
    nlinarith [hsim1]

/-! ### Supporting lemmas: unknown options are dropped, lists act as multisets -/

theorem filterMap_filter_isSome (ocm : ℕ → Option String) (u : List ℕ) :
    (u.filter (fun o => (ocm o).isSome)).filterMap ocm = u.filterMap ocm := by
  induction u with
  | nil => rfl
  | cons a u ih =>
    cases h : ocm a with
    | none => simp [List.filter_cons, List.filterMap_cons, h, ih]
    | some c => simp [List.filter_cons, List.filterMap_cons, h, ih]

theorem userOptionsIn_filter_isSome (ocm : ℕ → Option String) (u : List ℕ) (c : String) :
    userOptionsIn ocm (u.filter (fun o => (ocm o).isSome)) c = userOptionsIn ocm u c := by
  unfold userOptionsIn
  rw [List.filter_filter]
  apply List.filter_congr
  intro o _
  cases h : ocm o <;> simp [h]

theorem pctFor_filter_isSome (ocm : ℕ → Option String) (w : String → ℚ) (u : List ℕ)
    (s : Finset ℕ) :
    pctFor ocm w (u.filter (fun o => (ocm o).isSome)) s = pctFor ocm w u s := by
  simp only [pctFor, userCategories, categoryScoreFor, filterMap_filter_isSome,
    userOptionsIn_filter_isSome]

theorem userOptionsIn_perm {u u' : List ℕ} (h : u.Perm u') (ocm : ℕ → Option String)
    (c : String) : (userOptionsIn ocm u c).Perm (userOptionsIn ocm u' c) :=
  h.filter _

theorem categoryScoreFor_perm {u u' : List ℕ} (h : u.Perm u') (ocm : ℕ → Option String)
    (s : Finset ℕ) : categoryScoreFor ocm u s = categoryScoreFor ocm u' s := by
  funext c
  unfold categoryScoreFor
  rw [(userOptionsIn_perm h ocm c).length_eq, ((userOptionsIn_perm h ocm c).filter _).length_eq]

theorem pctFor_perm {u u' : List ℕ} (h : u.Perm u') (ocm : ℕ → Option String)
    (w : String → ℚ) (s : Finset ℕ) : pctFor ocm w u s = pctFor ocm w u' s := by
  have hcats : (userCategories ocm u).Perm (userCategories ocm u') :=
    dedupFirst_perm_of_perm (h.filterMap ocm)
  simp only [pctFor, categoryScoreFor_perm h ocm s]
  rw [(hcats.map (fun c =>
      if 0 < w c then categoryScoreFor ocm u' s c * w c else 0)).sum_eq,
    (hcats.map (fun c => if 0 < w c then w c else 0)).sum_eq]

theorem calculateBeachMatches_congr {u u' : List ℕ} (m : List (ℕ × Finset ℕ))
    (ocm : ℕ → Option String) (w : String → ℚ)
    (h : ∀ s, pctFor ocm w u s = pctFor ocm w u' s) :
    calculateBeachMatches u m ocm w = calculateBeachMatches u' m ocm w := by
  unfold calculateBeachMatches
  congr 1
  apply List.map_congr_left
  intro p _
  rw [h p.2]

/-! ### Supporting lemmas: the resolved beach feature rows -/

theorem mem_map_fst_iff_filter_ne_nil (l : List (ℕ × ℕ)) (b : ℕ) :
    b ∈ l.map Prod.fst ↔ l.filter (fun r => r.1 = b) ≠ [] := by
  rw [List.mem_map]
  constructor
  · rintro ⟨r, hr, rfl⟩
    intro h
    have hmem : r ∈ l.filter (fun q => q.1 = r.1) := List.mem_filter.2 ⟨hr, by simp⟩
    rw [h] at hmem
    cases hmem
  · intro h
    obtain ⟨r, hr⟩ := List.exists_mem_of_ne_nil _ h
    obtain ⟨hrl, hrb⟩ := List.mem_filter.1 hr
    exact ⟨r, hrl, by simpa using hrb⟩

theorem getBeachOptions_filter_of_mem {derived defaults : List (ℕ × ℕ)} {b : ℕ}
    (hb : b ∈ derived.map Prod.fst) :
    (getBeachOptions derived defaults).filter (fun r => r.1 = b)
      = derived.filter (fun r => r.1 = b) := by
  have hbd : b ∈ (derived.map Prod.fst).dedup := List.mem_dedup.2 hb
  unfold getBeachOptions
  rw [if_neg (by simp [List.isEmpty_iff, List.ne_nil_of_mem hbd]), List.filter_append]
  have h1 : (derived.filter (fun r => r.1 ∈ (derived.map Prod.fst).dedup)).filter
      (fun r => r.1 = b) = derived.filter (fun r => r.1 = b) := by
    rw [List.filter_filter]
    apply List.filter_congr
    intro r _
    by_cases h : r.1 = b
    · simp [h, hbd]
    · simp [h]
  have h2 : (defaults.filter (fun r => r.1 ∉ (derived.map Prod.fst).dedup)).filter
      (fun r => r.1 = b) = [] := by
    rw [List.filter_filter]
    rw [List.filter_eq_nil_iff]
    intro r _
    simp only [Bool.and_eq_true, decide_eq_true_eq]
    rintro ⟨rfl, hnot⟩
    exact hnot hbd
  rw [h1, h2, List.append_nil]

theorem getBeachOptions_filter_of_not_mem {derived defaults : List (ℕ × ℕ)} {b : ℕ}
    (hb : b ∉ derived.map Prod.fst) :
    (getBeachOptions derived defaults).filter (fun r => r.1 = b)
      = defaults.filter (fun r => r.1 = b) := by
  unfold getBeachOptions
  by_cases hd : (derived.map Prod.fst).dedup.isEmpty = true
  · rw [if_pos hd]
  · rw [if_neg hd, List.filter_append]
    have h1 : (derived.filter (fun r => r.1 ∈ (derived.map Prod.fst).dedup)).filter
        (fun r => r.1 = b) = [] := by
      rw [List.filter_filter, List.filter_eq_nil_iff]
      intro r hr
      simp only [Bool.and_eq_true, decide_eq_true_eq]
      rintro ⟨rfl, _⟩
      exact hb (List.mem_map_of_mem Prod.fst hr)
    have h2 : (defaults.filter (fun r => r.1 ∉ (derived.map Prod.fst).dedup)).filter
        (fun r => r.1 = b) = defaults.filter (fun r => r.1 = b) := by
      rw [List.filter_filter]
      apply List.filter_congr
      intro r _
      by_cases h : r.1 = b
      · have hnd : r.1 ∉ (derived.map Prod.fst).dedup := by
          rw [h]
          exact fun hmem => hb (List.mem_dedup.1 hmem)
        rw [decide_eq_true hnd, Bool.and_true]
      · rw [decide_eq_false h, Bool.false_and]
    rw [h1, h2, List.nil_append]

/-! ### Supporting lemmas: enrichment -/

theorem getDetailedBeachResults_spec (details : List (ℕ × String)) :
    ∀ (rs : List BeachMatch) (es : List EnrichedMatch),
      getDetailedBeachResults details rs = some es →
      es.map (fun e => (e.beach_id, e.match_percentage))
        = rs.map (fun r => (r.beach_id, r.match_percentage)) := by
  intro rs
  induction rs with
  | nil =>
    intro es h
    unfold getDetailedBeachResults at h
    injection h with h
    subst h
    rfl
  | cons r rs ih =>
    intro es h
    unfold getDetailedBeachResults at h
    cases hfind : details.find? (fun d => d.1 = r.beach_id) with
    | none => rw [hfind] at h; cases h
    | some d =>
      rw [hfind] at h
      simp only [Option.map_some'] at h
      cases hrec : getDetailedBeachResults details rs with
      | none => rw [hrec] at h; cases h
      | some es' =>
        rw [hrec] at h
        simp only [Option.map_some', Option.some.injEq] at h
        subst h
        simp [ih es' hrec]

/-! ### The claims

Concrete evaluations below use decide; Batteries marks the kernel-reducible
Rat operations irreducible for elaboration performance, so their default
reducibility is restored locally. -/

section Claims

attribute [local semireducible] Rat.add Rat.mul Rat.inv

/-- C1: for every beach in the feature map, the Match Scorer's output score is
exactly the spec formula (per positively weighted user category, precision of
the beach set against the user's selection count, weight-normalized, times
100 and rounded half-up); and in the spec's partial-match scenario — user
options {1,2,3} under weight 0.6 and {4} under weight 0.4, beach option set
{1,4} — the match percentage is 60. -/
theorem c1_match_scorer_formula :
    (∀ (u : List ℕ) (rows : List (ℕ × ℕ)) (ocm : ℕ → Option String) (w : String → ℚ)
        (b : ℕ) (s : Finset ℕ) (p : ℤ),
      (b, s) ∈ groupBeachOptionsByBeachId rows →
      (BeachMatch.mk b p ∈
          calculateBeachMatches u (groupBeachOptionsByBeachId rows) ocm w ↔
        p = specMatchPercentage ocm w u s))
    ∧ calculateBeachMatches [1, 2, 3, 4] [(7, {1, 4})] scenOcm scenWeights
        = [BeachMatch.mk 7 60] := by
  constructor
  · intro u rows ocm w b s p hmem
    obtain ⟨hb, hs⟩ := mem_groupBeachOptionsByBeachId.1 hmem
    rw [mem_calculateBeachMatches]
    constructor
    · rintro ⟨s', hs', rfl⟩
      obtain ⟨_, hs'eq⟩ := mem_groupBeachOptionsByBeachId.1 hs'
      have hss : s' = s := hs'eq.trans hs.symm
      rw [hss, pctFor_eq_specMatchPercentage]
    · rintro rfl
      exact ⟨s, hmem, (pctFor_eq_specMatchPercentage _ _ _ _).symm⟩
  · decide

/-- Witness for c1_match_scorer_formula: the feature map grouped from rows
[(7,1),(7,4)] contains beach 7 with option set {1,4}, and on the scenario
input the scorer's output carries exactly the spec-formula score. -/
theorem c1_match_scorer_formula_witness :
    BeachMatch.mk 7 60 ∈
      calculateBeachMatches [1, 2, 3, 4] (groupBeachOptionsByBeachId [(7, 1), (7, 4)])
        scenOcm scenWeights :=
  (c1_match_scorer_formula.1 [1, 2, 3, 4] [(7, 1), (7, 4)] scenOcm scenWeights 7 {1, 4} 60
    (by decide)).2 (by decide)

/-- C2: a beach with review_summary rows resolves to exactly its
review_summary option set whatever the default stream holds, so its computed
score never changes when the default stream changes; a beach without
review_summary rows resolves to exactly its default option set. -/
theorem c2_feature_resolver_exclusive :
    ∀ (derived defaults : List (ℕ × ℕ)) (b : ℕ),
      (b ∈ derived.map Prod.fst →
        (∀ s : Finset ℕ,
          ((b, s) ∈ groupBeachOptionsByBeachId (getBeachOptions derived defaults) ↔
            s = ((derived.filter (fun r => r.1 = b)).map Prod.snd).toFinset))
        ∧ ∀ (defaults' : List (ℕ × ℕ)) (u : List ℕ) (ocm : ℕ → Option String)
            (w : String → ℚ) (p : ℤ),
            (BeachMatch.mk b p ∈ calculateBeachMatches u
                (groupBeachOptionsByBeachId (getBeachOptions derived defaults)) ocm w ↔
              BeachMatch.mk b p ∈ calculateBeachMatches u
                (groupBeachOptionsByBeachId (getBeachOptions derived defaults')) ocm w))
      ∧ (b ∉ derived.map Prod.fst → b ∈ defaults.map Prod.fst →
          ∀ s : Finset ℕ,
            ((b, s) ∈ groupBeachOptionsByBeachId (getBeachOptions derived defaults) ↔
              s = ((defaults.filter (fun r => r.1 = b)).map Prod.snd).toFinset)) := by
  intro derived defaults b
  constructor
  · intro hb
    have hkey : ∀ (df : List (ℕ × ℕ)) (s : Finset ℕ),
        (b, s) ∈ groupBeachOptionsByBeachId (getBeachOptions derived df) ↔
          s = ((derived.filter (fun r => r.1 = b)).map Prod.snd).toFinset := by
      intro df s
      have hbrows : b ∈ (getBeachOptions derived df).map Prod.fst := by
        rw [mem_map_fst_iff_filter_ne_nil, getBeachOptions_filter_of_mem hb,
          ← mem_map_fst_iff_filter_ne_nil]
        exact hb
      rw [mem_groupBeachOptionsByBeachId, getBeachOptions_filter_of_mem hb]
      simp [hbrows]
    refine ⟨hkey defaults, ?_⟩
    intro defaults' u ocm w p
    rw [mem_calculateBeachMatches, mem_calculateBeachMatches]
    constructor
    · rintro ⟨s, hs, rfl⟩
      exact ⟨s, (hkey defaults' s).2 ((hkey defaults s).1 hs), rfl⟩
    · rintro ⟨s, hs, rfl⟩
      exact ⟨s, (hkey defaults s).2 ((hkey defaults' s).1 hs), rfl⟩
  · intro hb hbd s
    have hbrows : b ∈ (getBeachOptions derived defaults).map Prod.fst := by
      rw [mem_map_fst_iff_filter_ne_nil, getBeachOptions_filter_of_not_mem hb,
        ← mem_map_fst_iff_filter_ne_nil]
      exact hbd
    rw [mem_groupBeachOptionsByBeachId, getBeachOptions_filter_of_not_mem hb]
    simp [hbrows]

/-- Witness for c2_feature_resolver_exclusive: beach 1 has the review row
(1,10) and the default row (1,20); it resolves to {10}, its review-derived
set, the default row notwithstanding. -/
theorem c2_feature_resolver_exclusive_witness :
    (1, ({10} : Finset ℕ)) ∈
      groupBeachOptionsByBeachId (getBeachOptions [(1, 10)] [(1, 20), (2, 30)]) :=
  (((c2_feature_resolver_exclusive [(1, 10)] [(1, 20), (2, 30)] 1).1 (by decide)).1
    {10}).2 (by decide)

/-- C3: on a non-empty set of positive per-category scores with distinct
category names, every computed weight is rawScore / (sum of raw scores) and
the weights sum to exactly 1 over ℚ. -/
theorem c3_weight_normalization :
    ∀ (prefs : List (String × ℚ)),
      prefs ≠ [] →
      (∀ p ∈ prefs, 0 < p.2) →
      (prefs.map Prod.fst).Nodup →
      (∀ p ∈ prefs,
          wlookup (getUserPreferenceWeights prefs) p.1 = p.2 / (prefs.map Prod.snd).sum)
        ∧ ((getUserPreferenceWeights prefs).map Prod.snd).sum = 1 := by
  intro prefs hne hpos hnd
  have hmap := getUserPreferenceWeights_eq_map hnd hne
  have htot : 0 < (prefs.map Prod.snd).sum := by
    apply List.sum_pos
    · intro x hx
      obtain ⟨p, hp, rfl⟩ := List.mem_map.1 hx
      exact hpos p hp
    · simpa [List.map_eq_nil_iff] using hne
  have hkeys : ((getUserPreferenceWeights prefs).map Prod.fst).Nodup := by
    rw [hmap, List.map_map]
    exact hnd
  constructor
  · intro p hp
    apply wlookup_eq hkeys
    rw [hmap]
    exact List.mem_map_of_mem _ hp
  · rw [hmap, List.map_map]
    have hcomp : prefs.map
        (Prod.snd ∘ fun p : String × ℚ => (p.1, p.2 / (prefs.map Prod.snd).sum))
        = (prefs.map Prod.snd).map (fun x => x / (prefs.map Prod.snd).sum) := by
      rw [List.map_map]
      rfl
    rw [hcomp, sum_map_div, div_self (ne_of_gt htot)]

/-- Witness for c3_weight_normalization at scores A = 1, B = 3: each weight is
its score over 4 and the two weights sum to 1. -/
theorem c3_weight_normalization_witness :
    (∀ p ∈ [("A", (1:ℚ)), ("B", 3)],
        wlookup (getUserPreferenceWeights [("A", (1:ℚ)), ("B", 3)]) p.1
          = p.2 / ([("A", (1:ℚ)), ("B", 3)].map Prod.snd).sum)
      ∧ ((getUserPreferenceWeights [("A", (1:ℚ)), ("B", 3)]).map Prod.snd).sum = 1 :=
  c3_weight_normalization [("A", 1), ("B", 3)] (by decide) (by decide) (by decide)

/-- C4: the scored list is ordered by descending match percentage with ties by
ascending beach id (the ECMAScript-guaranteed stable sort over ascending
integer keys makes this deterministic), it contains exactly one entry per
beach of the feature map, and a successful response carries at most the top
5 of that order, enriched, ids and percentages preserved in order. -/
theorem c4_result_assembler :
    ∀ (u : List ℕ) (prefs : List (String × ℚ)) (ocmRows : List (ℕ × String))
      (derived defaults : List (ℕ × ℕ)) (details : List (ℕ × String)),
      (recResults u prefs ocmRows derived defaults).Pairwise matchBefore
      ∧ (recResults u prefs ocmRows derived defaults).Perm
          ((groupBeachOptionsByBeachId (getBeachOptions derived defaults)).map
            (fun q => BeachMatch.mk q.1
              (pctFor (getOptionCategoryMap ocmRows)
                (wlookup (getUserPreferenceWeights prefs)) u q.2)))
      ∧ ∀ detailed : List EnrichedMatch,
          BeachRecommendations u prefs ocmRows derived defaults details
            = RecOutcome.ok detailed →
          detailed.length ≤ 5
          ∧ detailed.map (fun e => (e.beach_id, e.match_percentage))
            = ((recResults u prefs ocmRows derived defaults).take 5).map
                (fun r => (r.beach_id, r.match_percentage)) := by
  intro u prefs ocmRows derived defaults details
  refine ⟨?_, ?_, ?_⟩
  · unfold recResults calculateBeachMatches
    apply sortMatches_pairwise
    rw [List.pairwise_map]
    exact groupBeachOptionsByBeachId_keys_lt _
  · unfold recResults calculateBeachMatches
    exact sortMatches_perm _
  · intro detailed hok
    unfold BeachRecommendations at hok
    by_cases h1 : u.isEmpty = true
    · rw [if_pos h1] at hok
      cases hok
    · rw [if_neg h1] at hok
      by_cases h2 : (getUserPreferenceWeights prefs).isEmpty = true
      · rw [if_pos h2] at hok
        cases hok
      · rw [if_neg h2] at hok
        by_cases h3 : (recResults u prefs ocmRows derived defaults).isEmpty = true
        · rw [if_pos h3] at hok
          injection hok with h
          subst h
          refine ⟨by simp, ?_⟩
          rw [List.isEmpty_iff.1 h3]
          rfl
        · rw [if_neg h3] at hok
          cases hdet : getDetailedBeachResults details
              ((recResults u prefs ocmRows derived defaults).take 5) with
          | none =>
            rw [hdet] at hok
            cases hok
          | some es =>
            rw [hdet] at hok
            injection hok with h
            subst h
            have hspec := getDetailedBeachResults_spec details _ _ hdet
            refine ⟨?_, hspec⟩
            have hlen := congrArg List.length hspec
            simp only [List.length_map] at hlen
            rw [hlen, List.length_take]
            exact min_le_left _ _

/-- Witness for c4_result_assembler: two beaches scoring 100 and 0 come back
enriched in that order, at most five of them. -/
theorem c4_result_assembler_witness :
    ([EnrichedMatch.mk 1 100 "X", EnrichedMatch.mk 2 0 "Y"] : List EnrichedMatch).length ≤ 5
    ∧ ([EnrichedMatch.mk 1 100 "X", EnrichedMatch.mk 2 0 "Y"] : List EnrichedMatch).map
        (fun e => (e.beach_id, e.match_percentage))
      = ((recResults [1] [("A", 1)] [(1, "A")] [] [(1, 1), (2, 5)]).take 5).map
          (fun r => (r.beach_id, r.match_percentage)) :=
  (c4_result_assembler [1] [("A", 1)] [(1, "A")] [] [(1, 1), (2, 5)]
    [(1, "X"), (2, "Y")]).2.2 [EnrichedMatch.mk 1 100 "X", EnrichedMatch.mk 2 0 "Y"]
    (by decide)

/-- C5 counterexample: a user with no stored category scores who also submits
an empty option list gets the invalid-input 400, not the ConfigurationError
the claim promises whenever no preference weights are resolvable — input
validation runs first. -/
theorem c5_error_precedence_cex :
    BeachRecommendations [] [] [] [] [] [] = RecOutcome.invalidInput
    ∧ RecOutcome.invalidInput ≠ RecOutcome.configError := by
  constructor
  · rfl
  · intro h
    cases h

/-- C5 amended: an empty option list always yields the invalid-input 400;
with a non-empty option list, a user with no stored category scores yields
the configuration 400; with both present neither of the two client errors is
returned. -/
theorem c5_error_precedence :
    ∀ (u : List ℕ) (prefs : List (String × ℚ)) (ocmRows : List (ℕ × String))
      (derived defaults : List (ℕ × ℕ)) (details : List (ℕ × String)),
      (u = [] → BeachRecommendations u prefs ocmRows derived defaults details
        = RecOutcome.invalidInput)
      ∧ (u ≠ [] → prefs = [] →
          BeachRecommendations u prefs ocmRows derived defaults details
            = RecOutcome.configError)
      ∧ (u ≠ [] → prefs ≠ [] →
          BeachRecommendations u prefs ocmRows derived defaults details
            ≠ RecOutcome.invalidInput
          ∧ BeachRecommendations u prefs ocmRows derived defaults details
            ≠ RecOutcome.configError) := by
  intro u prefs ocmRows derived defaults details
  refine ⟨?_, ?_, ?_⟩
  · rintro rfl
    rfl
  · intro hu hp
    subst hp
    unfold BeachRecommendations
    rw [if_neg (by simpa [List.isEmpty_iff] using hu)]
    rfl
  · intro hu hp
    unfold BeachRecommendations
    rw [if_neg (by simpa [List.isEmpty_iff] using hu)]
    rw [if_neg (by simp [List.isEmpty_iff, getUserPreferenceWeights_eq_nil_iff, hp])]
    refine ⟨?_, ?_⟩
    all_goals
      split
      · intro h
        cases h
      · split
        · intro h
          cases h
        · intro h
          cases h

/-- Witness for c5_error_precedence, exercising all three branches: empty
options give the invalid-input 400 even when preferences exist; non-empty
options with no stored scores give the configuration 400; with both present
neither client error occurs. -/
theorem c5_error_precedence_witness :
    BeachRecommendations [] [("A", (1:ℚ))] [] [] [] [] = RecOutcome.invalidInput
    ∧ BeachRecommendations [1] [] [] [] [] [] = RecOutcome.configError
    ∧ BeachRecommendations [1] [("A", (1:ℚ))] [] [] [] [] ≠ RecOutcome.invalidInput
    ∧ BeachRecommendations [1] [("A", (1:ℚ))] [] [] [] [] ≠ RecOutcome.configError :=
  ⟨(c5_error_precedence [] [("A", 1)] [] [] [] []).1 rfl,
   (c5_error_precedence [1] [] [] [] [] []).2.1 (by decide) rfl,
   ((c5_error_precedence [1] [("A", 1)] [] [] [] []).2.2 (by decide) (by decide)).1,
   ((c5_error_precedence [1] [("A", 1)] [] [] [] []).2.2 (by decide) (by decide)).2⟩

/-- C6: every entry the Match Scorer emits has an integer match percentage
between 0 and 100 inclusive, for any option list, feature map,
Option-Category Index and weight function. -/
theorem c6_match_percentage_bounds :
    ∀ (u : List ℕ) (m : List (ℕ × Finset ℕ)) (ocm : ℕ → Option String) (w : String → ℚ)
      (x : BeachMatch), x ∈ calculateBeachMatches u m ocm w →
      0 ≤ x.match_percentage ∧ x.match_percentage ≤ 100 := by
  intro u m ocm w x hx
  unfold calculateBeachMatches at hx
  rw [mem_sortMatches] at hx
  obtain ⟨p, _, rfl⟩ := List.mem_map.1 hx
  exact pctFor_bounds ocm w u p.2

/-- Witness for c6_match_percentage_bounds at the scenario input, whose single
output entry is beach 7 at 60 percent. -/
theorem c6_match_percentage_bounds_witness :
    0 ≤ (BeachMatch.mk 7 60).match_percentage
    ∧ (BeachMatch.mk 7 60).match_percentage ≤ 100 :=
  c6_match_percentage_bounds [1, 2, 3, 4] [(7, {1, 4})] scenOcm scenWeights
    (BeachMatch.mk 7 60) (by decide)

/-- C7: the code, not the claim, is at fault here. On a non-empty row set
whose scores are all zero, getUserPreferenceWeights divides each score by the
zero total (0/0, NaN in JS, the junk value 0 in this ℚ model) and returns a
NON-empty record, where its caller and the spec require the empty mapping;
the caller therefore proceeds instead of reporting missing preferences. -/
theorem c7_zero_scores_not_empty :
    getUserPreferenceWeights [("Scenery", 0)] = [("Scenery", 0)]
    ∧ getUserPreferenceWeights [("Scenery", 0)] ≠ ([] : List (String × ℚ)) := by
  constructor
  · decide
  · decide

/-- C8: option ids with no entry in the Option-Category Index contribute
nothing — scoring the option list with the unknown ids removed gives exactly
the same BeachMatch list, for every input. -/
theorem c8_unknown_options_ignored :
    ∀ (u : List ℕ) (m : List (ℕ × Finset ℕ)) (ocm : ℕ → Option String) (w : String → ℚ),
      calculateBeachMatches (u.filter (fun o => (ocm o).isSome)) m ocm w
        = calculateBeachMatches u m ocm w := by
  intro u m ocm w
  exact calculateBeachMatches_congr m ocm w (fun s => pctFor_filter_isSome ocm w u s)

/-- C9 counterexample: the Match Scorer does not treat the selected options as
a set. With options 1 and 2 in one category of weight 1 and a beach owning
only option 1, the list [1,1,2] scores round(2/3*100) = 67 while its
deduplication [1,2] scores 50, so the outputs differ. -/
theorem c9_duplicates_change_score_cex :
    calculateBeachMatches [1, 1, 2] [(1, {1})] cexOcm cexWeights
      ≠ calculateBeachMatches [1, 2] [(1, {1})] cexOcm cexWeights := by
  decide

/-- C9 amended: the Match Scorer never crashes on duplicates but treats the
selected option list as a multiset, not a set: permuting the list never
changes the output, while duplicated ids count with multiplicity in both the
numerator and denominator of categoryScore, so deduplication can change it. -/
theorem c9_multiset_not_set :
    ∀ (u u' : List ℕ), u.Perm u' →
      ∀ (m : List (ℕ × Finset ℕ)) (ocm : ℕ → Option String) (w : String → ℚ),
        calculateBeachMatches u m ocm w = calculateBeachMatches u' m ocm w := by
  intro u u' h m ocm w
  exact calculateBeachMatches_congr m ocm w (fun s => pctFor_perm h ocm w s)

/-- Witness for c9_multiset_not_set: reordering [2,1] to [1,2] leaves the
output unchanged. -/
theorem c9_multiset_not_set_witness :
    calculateBeachMatches [2, 1] [(1, {1})] cexOcm cexWeights
      = calculateBeachMatches [1, 2] [(1, {1})] cexOcm cexWeights :=
  c9_multiset_not_set [2, 1] [1, 2] (by decide) [(1, {1})] cexOcm cexWeights

/-- C10: with a non-empty option list and stored preference scores but no
beach rows in either data stream, the handler succeeds with an empty
recommendation list rather than erroring. -/
theorem c10_empty_beach_map_ok :
    ∀ (u : List ℕ) (prefs : List (String × ℚ)) (ocmRows : List (ℕ × String))
      (details : List (ℕ × String)),
      u ≠ [] → prefs ≠ [] →
      BeachRecommendations u prefs ocmRows [] [] details = RecOutcome.ok [] := by
  intro u prefs ocmRows details hu hp
  unfold BeachRecommendations
  rw [if_neg (by simpa [List.isEmpty_iff] using hu)]
  rw [if_neg (by simp [List.isEmpty_iff, getUserPreferenceWeights_eq_nil_iff, hp])]
  rw [if_pos ?hc]
  case hc =>
    have hres : recResults u prefs ocmRows [] [] = [] := rfl
    rw [hres]
    rfl

/-- Witness for c10_empty_beach_map_ok at a concrete user with one selected
option and one stored score. -/
theorem c10_empty_beach_map_ok_witness :
    BeachRecommendations [1] [("A", (1:ℚ))] [] [] [] [] = RecOutcome.ok [] :=
  c10_empty_beach_map_ok [1] [("A", 1)] [] [] (by decide) (by decide)

end Claims

end Oceanique
